import Mathlib

/-!
Verification of the DTW (delay-tolerant workload) scheduling subsystem of
icclab/mistral: a shallow embedding of `mistral/services/periodic.py`,
`mistral/services/delay_tolerant_workload.py`,
`mistral/db/v2/sqlalchemy/api.py` and the REST controller
`mistral/api/controllers/v2/delay_tolerant_workload.py`, together with
theorems about the embedded operations.

Conventions of the embedding:
* wall-clock instants are `Int` seconds since an arbitrary epoch at a
  midnight; Python `datetime` component accessors become `Int.emod` /
  `Int.ediv` arithmetic (Python `%` and `//` are floor operations, which
  `emod`/`ediv` match);
* Python dicts keyed by datetimes become association lists (`EPMap`) with
  insertion-order iteration; all dicts manipulated by the solver are built
  by `pyUpdate`, which keeps keys unique, so deleting a key is `filter`;
* Python exceptions become `Except PyExc`; an uncaught exception is an
  `Except.error`.
-/

/-- Kinds of Python exceptions that the embedded code can raise or catch.
Only the kind is modelled, not the message. -/
inductive PyExc where
  | valueError
  | typeError
  | keyError
  | attributeError
  | invalidModel
  | notFound
  | duplicateEntry
deriving DecidableEq, Repr

deriving instance DecidableEq for Except

/-- A Python dict from (hour-aligned) datetimes to prices, as an
insertion-ordered association list. -/
abbrev EPMap := List (Int × ℚ)

/-- The JSON object returned by the energy-price endpoint: a Python dict
from string keys (expected: "intra-day", "day-ahead") to hour→price maps. -/
abbrev EPrices := List (String × EPMap)

/-- Python dict lookup `m[k]` on an `EPMap`, returning `none` when the key
is absent (the caller decides whether that is a KeyError). -/
def plookup (k : Int) : EPMap → Option ℚ
  | [] => none
  | (k1, v) :: rest => if k1 = k then some v else plookup k rest

/-- Python dict lookup on the JSON object by string key. -/
def sLookup (s : String) : EPrices → Option EPMap
  | [] => none
  | (k, v) :: rest => if k = s then some v else sLookup s rest

/-- `energy_prices[s]`: raises KeyError when the key is absent. -/
def sLookupE (s : String) (p : EPrices) : Except PyExc EPMap :=
  match sLookup s p with
  | some m => .ok m
  | none => .error .keyError

/-- `dst[k] = v` on a Python dict: replace in place when the key exists,
append otherwise. -/
def pySet (dst : EPMap) (k : Int) (v : ℚ) : EPMap :=
  if (plookup k dst).isSome then
    dst.map (fun p => if p.1 = k then (k, v) else p)
  else
    dst ++ [(k, v)]

/-- `dst.update(src)` on Python dicts. -/
def pyUpdate (dst src : EPMap) : EPMap :=
  src.foldl (fun d p => pySet d p.1 p.2) dst

/-- `del m[k]`: raises KeyError when the key is absent.  The maps reaching
this operation are built by `pyUpdate` and hence have unique keys, so
removal by `filter` coincides with Python's removal of the single entry. -/
def delKey (k : Int) (m : EPMap) : Except PyExc EPMap :=
  if (plookup k m).isSome then .ok (m.filter (fun p => p.1 != k))
  else .error .keyError

/-- Midnight of the day of `t`: `datetime.combine(t.date(), time(0))`. -/
def dayStart (t : Int) : Int := t - Int.emod t 86400

/-- `t.hour` as a natural number. -/
def hourOf (t : Int) : Nat := ((Int.emod t 86400).ediv 3600).toNat

/-- `t.minute`. -/
def minuteOf (t : Int) : Int := (Int.emod t 3600).ediv 60

/-- `t.second`. -/
def secondOf (t : Int) : Int := Int.emod t 60

/-- periodic.py lines 185-188: `iter_time = iter_time_approx -
timedelta(minutes=iter_time_approx.minute, seconds=iter_time_approx.second)
+ timedelta(hours=1)`, i.e. the start of the hour after the hour containing
`x`, including when `x` is already hour-aligned. -/
def codeCeilHour (x : Int) : Int := x - 60 * minuteOf x - secondOf x + 3600

/-- The spec's §4.4 formula for the hour from which candidates are pruned:
`ceil_hour(x) = x + (60 − minute)min − second.s + 1h` when `x` is not
hour-aligned, and `ceil_hour(x) = x` when it is.  This definition follows
the spec's words, to be compared with `codeCeilHour` above. -/
def specCeilHour (x : Int) : Int :=
  if minuteOf x = 0 ∧ secondOf x = 0 then x
  else x + 60 * (60 - minuteOf x) - secondOf x + 3600

/-- periodic.py lines 172-174: `for i in range(0, current_time.hour + 1):
del ep[datetime.combine(today, time(hour=i))]`. -/
def delHoursList (today : Int) : List Nat → EPMap → Except PyExc EPMap
  | [], m => .ok m
  | i :: is, m =>
    match delKey (today + 3600 * (i : Int)) m with
    | .ok m1 => delHoursList today is m1
    | .error e => .error e

/-- periodic.py lines 190-192: `while iter_time < final_time: del
ep[iter_time]; iter_time += timedelta(hours=1)`. -/
def delHoursUpTo (finalTime iterTime : Int) (m : EPMap) : Except PyExc EPMap :=
  if iterTime < finalTime then
    match delKey iterTime m with
    | .ok m1 => delHoursUpTo finalTime (iterTime + 3600) m1
    | .error e => .error e
  else .ok m
termination_by (finalTime - iterTime).toNat
decreasing_by
  omega

/-- `final_time` of periodic.py lines 177-178: midnight of the current day
plus two days. -/
def finalTimeOf (currentTime : Int) : Int := dayStart currentTime + 2 * 86400

/-- periodic.py lines 162-166: `ep = dict(); ep.update(
energy_prices['intra-day']); ep.update(energy_prices['day-ahead'])`
(and `ref_ep = copy.copy(ep)` is the same value). -/
def mergedEP (prices : EPrices) : Except PyExc EPMap :=
  match sLookupE "intra-day" prices with
  | .error e => .error e
  | .ok intra =>
    match sLookupE "day-ahead" prices with
    | .error e => .error e
    | .ok dayAhead => .ok (pyUpdate (pyUpdate [] intra) dayAhead)

/-- The merge followed by the removal of today's past hours and the current
hour window (periodic.py lines 162-174). -/
def afterPastRemoval (currentTime : Int) (prices : EPrices) : Except PyExc EPMap :=
  match mergedEP prices with
  | .error e => .error e
  | .ok ep =>
    delHoursList (dayStart currentTime) (List.range (hourOf currentTime + 1)) ep

/-- The candidate set of `_find_optimal_start_time_with_data` after all
removals (periodic.py lines 162-192).  `jobDuration` is in minutes and is
nullable; `timedelta(minutes=None)` raises TypeError. -/
def solverPrep (currentTime : Int) (prices : EPrices) (jobDuration : Option Int)
    (deadline : Int) : Except PyExc EPMap :=
  match afterPastRemoval currentTime prices with
  | .error e => .error e
  | .ok ep =>
    match jobDuration with
    | none => .error .typeError
    | some jd =>
      if deadline - jd * 60 < finalTimeOf currentTime then
        delHoursUpTo (finalTimeOf currentTime) (codeCeilHour (deadline - jd * 60)) ep
      else .ok ep

/-- `int(job_duration * 1.0 / 60)`: hours of the job footprint, truncated
toward zero (periodic.py line 196 and 202). -/
def jobHoursOf : Option Int → Nat
  | none => 0
  | some jd => (Int.tdiv jd 60).toNat

/-- periodic.py lines 201-203: `job_cost = 0; for i in range(0, D):
job_cost += ref_ep[t + timedelta(hours=i)]`; a missing key raises
KeyError. -/
def jobCost (refEp : EPMap) (t : Int) : Nat → Except PyExc ℚ
  | 0 => .ok 0
  | n + 1 =>
    match jobCost refEp t n with
    | .error e => .error e
    | .ok acc =>
      match plookup (t + 3600 * (n : Int)) refEp with
      | some v => .ok (acc + v)
      | none => .error .keyError

/-- periodic.py lines 197-206: the selection loop over the candidate dict,
with the `-1` sentinel for "no minimum yet":
`if minimum_price == -1 or job_cost < minimum_price: ...`. -/
def selectLoop (refEp : EPMap) (d : Nat) :
    EPMap → ℚ → Option Int → Except PyExc (Option Int)
  | [], _, minTime => .ok minTime
  | (t, _) :: rest, minPrice, minTime =>
    match jobCost refEp t d with
    | .error e => .error e
    | .ok c =>
      if minPrice = -1 ∨ c < minPrice then selectLoop refEp d rest c (some t)
      else selectLoop refEp d rest minPrice minTime

/-- `MistralPeriodicTasks._find_optimal_start_time_with_data`
(periodic.py lines 150-208). -/
def findOptimalStartTimeWithData (currentTime : Int) (prices : EPrices)
    (jobDuration : Option Int) (deadline : Int) : Except PyExc (Option Int) :=
  match mergedEP prices with
  | .error e => .error e
  | .ok refEp =>
    match solverPrep currentTime prices jobDuration deadline with
    | .error e => .error e
    | .ok ep => selectLoop refEp (jobHoursOf jobDuration) ep (-1) none

/-- The outcome of the HTTP GET in `_get_energy_prices`: a connection
error, or a response with a status code and a body that either parses as
JSON (`some`) or not (`none`).  `requests` raises for neither the status
nor the body; `.json()` raises ValueError on an unparseable body. -/
inductive HttpFetch where
  | connError
  | response (status : Nat) (body : Option EPrices)
deriving DecidableEq, Repr

/-- `MistralPeriodicTasks._get_energy_prices` (periodic.py lines 210-220):
`try: return requests.get(...).json() except requests.ConnectionError:
return None`.  Only the connection error is caught; the status code is
never inspected. -/
def getEnergyPrices (fetch : HttpFetch) : Except PyExc (Option EPrices) :=
  match fetch with
  | .connError => .ok none
  | .response _ none => .error .valueError
  | .response _ (some j) => .ok (some j)

/-- `if not energy_prices` on the oracle result: falsy is `None` or the
empty dict. -/
def pricesFalsy : Option EPrices → Bool
  | none => true
  | some p => p.isEmpty

/-- `MistralPeriodicTasks._determine_optimal_scheduling` (periodic.py
lines 222-246): fetch prices; on a falsy result return `now + 2 min`,
otherwise run the solver.  `now` (the value of `datetime.datetime.now()`
during this call) is a parameter of the embedding. -/
def determineOptimalScheduling (fetch : HttpFetch) (now : Int)
    (jobDuration : Option Int) (deadline : Int) : Except PyExc (Option Int) :=
  match getEnergyPrices fetch with
  | .error e => .error e
  | .ok energyPrices =>
    if pricesFalsy energyPrices then .ok (some (now + 120))
    else
      match energyPrices with
      | none => .ok (some (now + 120))
      | some p => findOptimalStartTimeWithData now p jobDuration deadline

/-- A row of the `delay_tolerant_workload_v2` table (logical schema of
spec §6; fields not read or written by the embedded operations are
omitted).  `job_duration` is nullable minutes. -/
structure DtwRow where
  name : String
  workflow_name : String
  workflow_id : String
  deadline : Int
  job_duration : Option Int
  scope : String
  executed : Bool
  scheduled : Bool
  trust_id : Option String
  created_at : Int
deriving DecidableEq, Repr

/-- A row of the `cron_triggers_v2` table (fields used by the embedded
operations). -/
structure CronTriggerRow where
  name : String
  pat : Option String
  next_execution_time : Option Int
  remaining_executions : Option Int
  workflow_name : String
  workflow_id : Option String
  trust_id : Option String
deriving DecidableEq, Repr

/-- A recorded `start_workflow` RPC: the workflow name and the
description string passed to the engine client. -/
structure StartCall where
  workflow : String
  description : String
deriving DecidableEq, Repr

/-- The store state seen by one tick: DTW rows, cron-trigger rows, and the
workflow executions started so far. -/
structure TickState where
  dtws : List DtwRow
  triggers : List CronTriggerRow
  calls : List StartCall
deriving DecidableEq, Repr

/-- `advance_cron_trigger` lines 335-336: if `remaining_executions` is not
None and positive, decrement it. -/
def nextRemaining : Option Int → Option Int
  | some n => if 0 < n then some (n - 1) else some n
  | none => none

/-- `advance_cron_trigger` (periodic.py lines 330-367) acting on the
snapshot row `t` and the current database row `db` for that trigger
(`none` when the row has been deleted).  The delete branch calls
`db_api_v2.delete_cron_trigger` (sqlalchemy/api.py lines 1136-1150): a
missing row raises DBEntityNotFoundError, which line 359 catches, leaving
`modified_count = 0`.  The update branch calls
`db_api_v2.update_cron_trigger` with
`query_filter={'next_execution_time': t.next_execution_time}`
(sqlalchemy/api.py lines 1087-1121): a missing row raises the same caught
error, a conditional update that matches no row returns count 0, and a
match updates the row and returns count 1.  `nextFire` stands for
`triggers.get_next_execution_time` (services/triggers.py, not in the
source tree), applied to the snapshot's pattern and time.  Returns
`(modified_count > 0, new database state)`. -/
def advance_cron_trigger (nextFire : Option String → Option Int → Option Int)
    (t : CronTriggerRow) (db : Option CronTriggerRow) :
    Bool × Option CronTriggerRow :=
  let rem := nextRemaining t.remaining_executions
  if rem = some 0 then
    match db with
    | none => (false, none)
    | some _ => (true, none)
  else
    match db with
    | none => (false, none)
    | some row =>
      if row.next_execution_time = t.next_execution_time then
        (true, some { row with
                        next_execution_time := nextFire t.pat t.next_execution_time,
                        remaining_executions := rem })
      else (false, some row)

/-- `db_api.update_delay_tolerant_workload(name, {'scheduled': True})`
(sqlalchemy/api.py lines 1211-1247, no query filter): raises
DBEntityNotFoundError when no row has the name, else updates the row. -/
def updateDtwScheduled (n : String) (l : List DtwRow) : Except PyExc (List DtwRow) :=
  if l.any (fun r => r.name = n) then
    .ok (l.map (fun r => if r.name = n then { r with scheduled := true } else r))
  else .error .notFound

/-- `db_api.update_delay_tolerant_workload(name, {'executed': True})`:
same operation for the `executed` flag. -/
def updateDtwExecuted (n : String) (l : List DtwRow) : Except PyExc (List DtwRow) :=
  if l.any (fun r => r.name = n) then
    .ok (l.map (fun r => if r.name = n then { r with executed := true } else r))
  else .error .notFound

/-- Modelled from the spec: `triggers.create_cron_trigger`
(services/triggers.py is not in the source tree).  Per spec §4.5 and §8.4
it persists a one-shot cron trigger whose `next_execution_time` is the
given first/start time and whose `remaining_executions` is `count`, with
the given `trust_id`; per the §3 identity `(id, name)` and the §3
invariant on `=dtw.name` triggers, a duplicate name is a Duplicate
error. -/
def create_cron_trigger (trigs : List CronTriggerRow) (n wfName : String)
    (count : Option Int) (firstTime : Option Int) (wfId : Option String)
    (trustId : Option String) : Except PyExc (List CronTriggerRow) :=
  if trigs.any (fun tr => tr.name = n) then .error .duplicateEntry
  else
    .ok (trigs ++ [{ name := n, pat := none, next_execution_time := firstTime,
                     remaining_executions := count, workflow_name := wfName,
                     workflow_id := wfId, trust_id := trustId }])

/-- Sequential processing of the snapshot list of DTWs produced by the
query at the head of each policy loop. -/
def processList (f : TickState → DtwRow → Except PyExc TickState) :
    TickState → List DtwRow → Except PyExc TickState
  | st, [] => .ok st
  | st, d :: ds =>
    match f st d with
    | .ok st1 => processList f st1 ds
    | .error e => .error e

/-- The `start_workflow` call made by the immediate and energy-aware-long
paths: `rpc.get_engine_client().start_workflow(d.workflow.name,
d.workflow_input, description="DTW Workflow execution created.",
**d.workflow_params)`.  The related workflow's name equals the row's
`workflow_name` (creation stores `wf_def.name` in both places). -/
def mkDtwCall (d : DtwRow) : StartCall :=
  { workflow := d.workflow_name, description := "DTW Workflow execution created." }

/-- The try/except body of the energy-aware long-term branch (periodic.py
lines 275-297), also the per-item body `_dtw_schedule_immediately` would
run: CAS-free `executed = True` update then the RPC; any exception is
caught and logged, leaving the state as of the failure point. -/
def energyLongBranch (st : TickState) (d : DtwRow) : TickState :=
  match updateDtwExecuted d.name st.dtws with
  | .ok dtws => { st with dtws := dtws, calls := st.calls ++ [mkDtwCall d] }
  | .error _ => st

/-- `d.job_duration > MINIMUM_LONG_TERM_WORKLOAD` (periodic.py line 275)
under Python 2 comparison semantics, where `None > 360` is False. -/
def jdLongTerm : Option Int → Bool
  | none => false
  | some jd => 360 < jd

/-- The per-item body of `_dtw_energy_aware_scheduling` (periodic.py lines
265-310).  The short-term branch has no try/except: solver and
trigger-creation errors propagate.  The created trigger omits `trust_id`
(line 304-310 passes no `trust_id`, so it defaults to None). -/
def energyAwareBody (fetch : HttpFetch) (now : Int) (st : TickState)
    (d : DtwRow) : Except PyExc TickState :=
  if jdLongTerm d.job_duration then .ok (energyLongBranch st d)
  else
    match determineOptimalScheduling fetch now d.job_duration d.deadline with
    | .error e => .error e
    | .ok schedulingTime =>
      match create_cron_trigger st.triggers d.name d.workflow_name
          (some 1) schedulingTime (some d.workflow_id) none with
      | .error e => .error e
      | .ok trigs => .ok { st with triggers := trigs }

/-- `MistralPeriodicTasks._dtw_energy_aware_scheduling` (periodic.py lines
248-310): iterate over `dtw.get_unscheduled_delay_tolerant_workload()` =
`db_api.get_delay_tolerant_workloads_with_execution(False)`
(sqlalchemy/api.py lines 1284-1289), the rows with `executed = False`. -/
def dtwEnergyAwareTick (fetch : HttpFetch) (now : Int) (st : TickState) :
    Except PyExc TickState :=
  processList (energyAwareBody fetch now) st
    (st.dtws.filter (fun d => d.executed = false))

/-- The per-item body of `_dtw_last_minute_scheduling` (periodic.py lines
119-148): set `scheduled = True`, compute `start_time = d.deadline -
timedelta(minutes=d.job_duration)` (TypeError when `job_duration` is
None), create a one-shot trigger carrying `trust_id=d.trust_id`.  No
try/except: errors propagate. -/
def lastMinuteBody (st : TickState) (d : DtwRow) : Except PyExc TickState :=
  match updateDtwScheduled d.name st.dtws with
  | .error e => .error e
  | .ok dtws =>
    match d.job_duration with
    | none => .error .typeError
    | some jd =>
      match create_cron_trigger st.triggers d.name d.workflow_name
          (some 1) (some (d.deadline - 60 * jd)) (some d.workflow_id) d.trust_id with
      | .error e => .error e
      | .ok trigs => .ok { st with dtws := dtws, triggers := trigs }

/-- `MistralPeriodicTasks._dtw_last_minute_scheduling` (periodic.py lines
117-148). -/
def dtwLastMinuteTick (st : TickState) : Except PyExc TickState :=
  processList lastMinuteBody st (st.dtws.filter (fun d => d.executed = false))

/-- `MistralPeriodicTasks._dtw_schedule_immediately` (periodic.py lines
86-115).  Its loop header evaluates
`dtw.get_delay_tolerant_workload_with_execution()`, but
`mistral/services/delay_tolerant_workload.py` defines no attribute of
that name (it defines only `get_unscheduled_delay_tolerant_workload` and
`create_delay_tolerant_workload`), so Python raises AttributeError before
any row is read or written; the try/except sits inside the loop body and
does not catch it. -/
def dtwScheduleImmediately (_st : TickState) : Except PyExc TickState :=
  .error .attributeError

/-- `MistralPeriodicTasks.process_delay_tolerant_workload` (periodic.py
lines 312-327): dispatch on `CONF.engine.dtw_scheduler_mode`; an unknown
mode raises AttributeError. -/
def processDelayTolerantWorkload (mode : String) (fetch : HttpFetch)
    (now : Int) (st : TickState) : Except PyExc TickState :=
  if mode = "immediately" then dtwScheduleImmediately st
  else if mode = "last-minute" then dtwLastMinuteTick st
  else if mode = "energy-aware" then dtwEnergyAwareTick fetch now st
  else .error .attributeError

/-- `create_delay_tolerant_workload`
(services/delay_tolerant_workload.py lines 33-72).  External collaborators
appear as parameters:
* `parse` is `dateutil.parser.parse` applied to the (possibly absent)
  deadline value; the service catches only ValueError (line 38) and
  re-raises it as InvalidModel, so any other exception kind propagates;
* `now` is `datetime.datetime.now()` at the validation check (line 40);
  `created_at` is modelled from the spec: the row-creation timestamp set by
  the model base class (mistral/db/sqlalchemy/model_base.py is not in the
  source tree), taken to be the same logical instant as the check, per the
  §3 `created_at` attribute;
* `wfRes` is the outcome of `db_api.get_workflow_definition` plus
  `eng_utils.validate_input` (lines 46-54): the `(name, id)` of the
  resolved definition, or the exception either raises;
* `trustId` is what `security.add_trust_id` (services/security.py, not in
  the source tree) writes into the values map; modelled from the spec §4.8
  step 6.
The persisted values (lines 56-66) set `scope = 'private'` and
`executed = False` and omit `scheduled`; `scheduled := false` is modelled
from the spec (§4.8 step 7: persist with `scheduled=false`; the column
default lives in db/v2/sqlalchemy/models.py, not in the source tree). -/
def create_delay_tolerant_workload (parse : Option String → Except PyExc Int)
    (now : Int) (wfRes : Except PyExc (String × String)) (trustId : Option String)
    (n : String) (deadlineStr : Option String) (jobDuration : Option Int) :
    Except PyExc DtwRow :=
  match parse deadlineStr with
  | .error .valueError => .error .invalidModel
  | .error e => .error e
  | .ok dl =>
    if dl < now + 60 then .error .invalidModel
    else
      match wfRes with
      | .error e => .error e
      | .ok (wfName, wfId) =>
        .ok { name := n, workflow_name := wfName, workflow_id := wfId,
              deadline := dl, job_duration := jobDuration, scope := "private",
              executed := false, scheduled := false, trust_id := trustId,
              created_at := now }

/-- The REST body of `POST /v2/delay_tolerant_workload`: every wsme
attribute of the `DelayTolerantWorkload` resource is optional, and an
omitted attribute becomes `None` in `to_dict()`. -/
structure DtwPostBody where
  name : String
  deadline : Option String
  job_duration : Option Int
deriving DecidableEq, Repr

/-- `DelayTolerantWorkloadController.post`
(api/controllers/v2/delay_tolerant_workload.py lines 102-121): forwards
`values.get('deadline')` and `values.get('job_duration')` to the service
unchanged. -/
def dtwControllerPost (parse : Option String → Except PyExc Int) (now : Int)
    (wfRes : Except PyExc (String × String)) (trustId : Option String)
    (body : DtwPostBody) : Except PyExc DtwRow :=
  create_delay_tolerant_workload parse now wfRes trustId
    body.name body.deadline body.job_duration

/-! ### Helper lemmas for the selection loop of the solver -/

/-- The per-candidate costs of the selection loop: `some` exactly when every
candidate's footprint lies in `refEp`. -/
def costsOf (refEp : EPMap) (d : Nat) : EPMap → Option (List (Int × ℚ))
  | [] => some []
  | (t, _) :: rest =>
    match jobCost refEp t d with
    | .ok c => (costsOf refEp d rest).map (fun cl => (t, c) :: cl)
    | .error _ => none

/-- The selection loop on precomputed costs. -/
def selectPure : List (Int × ℚ) → ℚ → Option Int → Option Int
  | [], _, minTime => minTime
  | (t, c) :: rest, minPrice, minTime =>
    if minPrice = -1 ∨ c < minPrice then selectPure rest c (some t)
    else selectPure rest minPrice minTime

/-- The earliest pair of minimal cost in a cost list. -/
def firstArgminP : List (Int × ℚ) → Option (Int × ℚ)
  | [] => none
  | (t, c) :: rest =>
    match firstArgminP rest with
    | none => some (t, c)
    | some p => if c ≤ p.2 then some (t, c) else some p

theorem selectLoop_eq_selectPure (refEp : EPMap) (d : Nat) :
    ∀ (ep : EPMap) (cl : List (Int × ℚ)) (mp : ℚ) (mt : Option Int),
    costsOf refEp d ep = some cl →
    selectLoop refEp d ep mp mt = .ok (selectPure cl mp mt) := by
  intro ep
  induction ep with
  | nil =>
    intro cl mp mt h
    simp only [costsOf, Option.some.injEq] at h
    subst h
    simp [selectLoop, selectPure]
  | cons hd rest ih =>
    intro cl mp mt h
    obtain ⟨t, v⟩ := hd
    simp only [costsOf] at h
    cases hjc : jobCost refEp t d with
    | error e => rw [hjc] at h; simp at h
    | ok c =>
      rw [hjc] at h
      cases hcs : costsOf refEp d rest with
      | none => rw [hcs] at h; simp at h
      | some cl1 =>
        rw [hcs] at h
        simp only [Option.map_some', Option.some.injEq] at h
        subst h
        simp only [selectLoop, hjc, selectPure]
        by_cases hcond : mp = -1 ∨ c < mp
        · simp only [hcond, if_true]
          exact ih cl1 c (some t) hcs
        · simp only [hcond, if_false]
          exact ih cl1 mp mt hcs

theorem firstArgminP_eq_none_iff (cl : List (Int × ℚ)) :
    firstArgminP cl = none ↔ cl = [] := by
  cases cl with
  | nil => simp [firstArgminP]
  | cons hd rest =>
    obtain ⟨t, c⟩ := hd
    simp only [firstArgminP]
    cases firstArgminP rest with
    | none => simp
    | some p =>
      by_cases h : c ≤ p.2 <;> simp [h]

theorem selectPure_run :
    ∀ (cl : List (Int × ℚ)) (mp : ℚ) (mt : Option Int), mp ≠ -1 →
    (∀ p ∈ cl, p.2 ≠ -1) →
    selectPure cl mp mt =
      (match firstArgminP cl with
       | none => mt
       | some p => if p.2 < mp then some p.1 else mt) := by
  intro cl
  induction cl with
  | nil => intro mp mt _ _; simp [selectPure, firstArgminP]
  | cons hd rest ih =>
    intro mp mt hmp hne
    obtain ⟨t, c⟩ := hd
    have hc : c ≠ -1 := hne (t, c) (List.mem_cons_self _ _)
    have hne1 : ∀ p ∈ rest, p.2 ≠ -1 := fun p hp => hne p (List.mem_cons_of_mem _ hp)
    simp only [selectPure, firstArgminP]
    by_cases hcond : c < mp
    · have : (mp = -1 ∨ c < mp) := Or.inr hcond
      simp only [this, if_true]
      rw [ih c (some t) hc hne1]
      cases hfa : firstArgminP rest with
      | none => simp [hcond]
      | some p =>
        by_cases hcp : c ≤ p.2
        · have : ¬ p.2 < c := not_lt.mpr hcp
          simp only [this, if_false, hcp, if_true]
          simp [hcond]
        · have hlt : p.2 < c := lt_of_not_ge hcp
          have : p.2 < mp := lt_trans hlt hcond
          simp only [hlt, if_true, hcp, if_false]
          simp [this]
    · have : ¬ (mp = -1 ∨ c < mp) := by
        intro hor
        cases hor with
        | inl h1 => exact hmp h1
        | inr h2 => exact hcond h2
      simp only [this, if_false]
      rw [ih mp mt hmp hne1]
      cases hfa : firstArgminP rest with
      | none => simp [hcond]
      | some p =>
        by_cases hcp : c ≤ p.2
        · have hnp : ¬ p.2 < mp := by
            intro h1
            exact hcond (lt_of_le_of_lt hcp h1)
          simp only [hcp, if_true]
          simp [hcond, hnp]
        · simp only [hcp, if_false]

theorem selectPure_init (cl : List (Int × ℚ)) (hne : ∀ p ∈ cl, p.2 ≠ -1) :
    selectPure cl (-1) none = (firstArgminP cl).map Prod.fst := by
  cases cl with
  | nil => simp [selectPure, firstArgminP]
  | cons hd rest =>
    obtain ⟨t, c⟩ := hd
    have hc : c ≠ -1 := hne (t, c) (List.mem_cons_self _ _)
    have hne1 : ∀ p ∈ rest, p.2 ≠ -1 := fun p hp => hne p (List.mem_cons_of_mem _ hp)
    simp only [selectPure, firstArgminP]
    simp only [true_or, if_true]
    rw [selectPure_run rest c (some t) hc hne1]
    cases hfa : firstArgminP rest with
    | none => simp
    | some p =>
      by_cases hcp : c ≤ p.2
      · have : ¬ p.2 < c := not_lt.mpr hcp
        simp [this, hcp]
      · have hlt : p.2 < c := lt_of_not_ge hcp
        simp [hlt, hcp]

theorem firstArgminP_spec :
    ∀ (cl : List (Int × ℚ)) (p : Int × ℚ), firstArgminP cl = some p →
    ∃ k : Nat, cl[k]? = some p ∧
      (∀ (j : Nat) (q : Int × ℚ), cl[j]? = some q → p.2 ≤ q.2) ∧
      (∀ (j : Nat) (q : Int × ℚ), j < k → cl[j]? = some q → p.2 < q.2) := by
  intro cl
  induction cl with
  | nil => intro p h; simp [firstArgminP] at h
  | cons hd rest ih =>
    intro p h
    obtain ⟨t, c⟩ := hd
    simp only [firstArgminP] at h
    cases hfa : firstArgminP rest with
    | none =>
      rw [hfa] at h
      simp only [Option.some.injEq] at h
      subst h
      have hrest : rest = [] := (firstArgminP_eq_none_iff rest).mp hfa
      subst hrest
      refine ⟨0, by simp, ?_, ?_⟩
      · intro j q hj
        cases j with
        | zero => simp at hj; subst hj; exact le_refl _
        | succ j => simp at hj
      · intro j q hj _
        omega
    | some p1 =>
      rw [hfa] at h
      obtain ⟨k1, hk1, hmin1, hpre1⟩ := ih p1 hfa
      by_cases hcp : c ≤ p1.2
      · simp only [hcp, if_true, Option.some.injEq] at h
        subst h
        refine ⟨0, by simp, ?_, ?_⟩
        · intro j q hj
          cases j with
          | zero =>
            simp only [List.getElem?_cons_zero, Option.some.injEq] at hj
            subst hj
            exact le_refl _
          | succ j =>
            simp only [List.getElem?_cons_succ] at hj
            exact le_trans hcp (hmin1 j q hj)
        · intro j q hj _
          omega
      · simp only [hcp, if_false, Option.some.injEq] at h
        subst h
        have hlt : p1.2 < c := lt_of_not_ge hcp
        refine ⟨k1 + 1, by simpa using hk1, ?_, ?_⟩
        · intro j q hj
          cases j with
          | zero =>
            simp only [List.getElem?_cons_zero, Option.some.injEq] at hj
            subst hj
            exact le_of_lt hlt
          | succ j =>
            simp only [List.getElem?_cons_succ] at hj
            exact hmin1 j q hj
        · intro j q hjk hj
          cases j with
          | zero =>
            simp only [List.getElem?_cons_zero, Option.some.injEq] at hj
            subst hj
            exact hlt
          | succ j =>
            simp only [List.getElem?_cons_succ] at hj
            exact hpre1 j q (by omega) hj

/-! ### Helper lemmas for the pruning loops -/

theorem plookup_filter_ne (k j : Int) (m : EPMap) :
    plookup k (m.filter (fun p => p.1 != j)) =
      if k = j then none else plookup k m := by
  induction m with
  | nil => simp [plookup]
  | cons hd rest ih =>
    obtain ⟨k1, v⟩ := hd
    by_cases h1 : k1 = j
    · subst h1
      simp only [List.filter_cons, bne_self_eq_false, Bool.false_eq_true, if_false]
      rw [ih]
      by_cases h2 : k = k1
      · subst h2
        simp [plookup]
      · have h3 : k1 ≠ k := fun hh => h2 hh.symm
        simp [plookup, h3, h2]
    · have h1b : (k1 != j) = true := bne_iff_ne.mpr h1
      simp only [List.filter_cons, h1b, if_true]
      by_cases h2 : k1 = k
      · have h3 : ¬ k = j := by rw [← h2]; exact h1
        simp [plookup, h2, h3]
      · simp only [plookup, h2, if_false]
        exact ih

theorem delKey_ok_iff (k : Int) (m m' : EPMap) :
    delKey k m = .ok m' ↔
      (plookup k m).isSome = true ∧ m' = m.filter (fun p => p.1 != k) := by
  unfold delKey
  by_cases h : (plookup k m).isSome <;> simp [h, eq_comm]

theorem delHoursUpTo_lookup (finalTime iterTime : Int) (m l : EPMap)
    (h : delHoursUpTo finalTime iterTime m = .ok l) (k : Int) :
    plookup k l =
      if iterTime ≤ k ∧ k < finalTime ∧ (k - iterTime) % 3600 = 0 then none
      else plookup k m := by
  by_cases hlt : iterTime < finalTime
  · rw [delHoursUpTo, if_pos hlt] at h
    cases hdk : delKey iterTime m with
    | error e => rw [hdk] at h; simp at h
    | ok m1 =>
      rw [hdk] at h
      have ih := delHoursUpTo_lookup finalTime (iterTime + 3600) m1 l h k
      have hm1 : m1 = m.filter (fun p => p.1 != iterTime) :=
        ((delKey_ok_iff _ _ _).mp hdk).2
      rw [ih, hm1, plookup_filter_ne]
      by_cases hB : iterTime ≤ k ∧ k < finalTime ∧ (k - iterTime) % 3600 = 0
      · rw [if_pos hB]
        by_cases hk : k = iterTime
        · have hA : ¬(iterTime + 3600 ≤ k ∧ k < finalTime ∧
              (k - (iterTime + 3600)) % 3600 = 0) := by omega
          rw [if_neg hA, if_pos hk]
        · have hA : iterTime + 3600 ≤ k ∧ k < finalTime ∧
              (k - (iterTime + 3600)) % 3600 = 0 := by omega
          rw [if_pos hA]
      · rw [if_neg hB]
        have hk : ¬ (k = iterTime) := by omega
        have hA : ¬(iterTime + 3600 ≤ k ∧ k < finalTime ∧
            (k - (iterTime + 3600)) % 3600 = 0) := by omega
        rw [if_neg hA, if_neg hk]
  · rw [delHoursUpTo, if_neg hlt] at h
    simp only [Except.ok.injEq] at h
    subst h
    have hc : ¬(iterTime ≤ k ∧ k < finalTime ∧ (k - iterTime) % 3600 = 0) := by omega
    rw [if_neg hc]
termination_by (finalTime - iterTime).toNat
decreasing_by omega

theorem jobCost_ok_of_footprint (refEp : EPMap) (t : Int) :
    ∀ d : Nat, (∀ i : Nat, i < d → (plookup (t + 3600 * (i : Int)) refEp).isSome) →
    ∃ c, jobCost refEp t d = .ok c := by
  intro d
  induction d with
  | zero => intro _; exact ⟨0, rfl⟩
  | succ n ih =>
    intro h
    obtain ⟨c, hc⟩ := ih (fun i hi => h i (Nat.lt_succ_of_lt hi))
    have hn := h n (Nat.lt_succ_self n)
    obtain ⟨v, hv⟩ := Option.isSome_iff_exists.mp hn
    exact ⟨c + v, by simp [jobCost, hc, hv]⟩

theorem costsOf_isSome (refEp : EPMap) (d : Nat) :
    ∀ ep : EPMap,
    (∀ p ∈ ep, ∀ i : Nat, i < d → (plookup (p.1 + 3600 * (i : Int)) refEp).isSome) →
    ∃ cl, costsOf refEp d ep = some cl := by
  intro ep
  induction ep with
  | nil => intro _; exact ⟨[], rfl⟩
  | cons hd rest ih =>
    intro h
    obtain ⟨t, v⟩ := hd
    obtain ⟨c, hc⟩ := jobCost_ok_of_footprint refEp t d
      (fun i hi => h (t, v) (List.mem_cons_self _ _) i hi)
    obtain ⟨cl1, hcl1⟩ := ih (fun p hp => h p (List.mem_cons_of_mem _ hp))
    exact ⟨(t, c) :: cl1, by simp [costsOf, hc, hcl1]⟩

theorem costsOf_keys (refEp : EPMap) (d : Nat) :
    ∀ (ep : EPMap) (cl : List (Int × ℚ)), costsOf refEp d ep = some cl →
    cl.map Prod.fst = ep.map Prod.fst := by
  intro ep
  induction ep with
  | nil =>
    intro cl h
    simp only [costsOf, Option.some.injEq] at h
    subst h
    simp
  | cons hd rest ih =>
    intro cl h
    obtain ⟨t, v⟩ := hd
    simp only [costsOf] at h
    cases hjc : jobCost refEp t d with
    | error e => rw [hjc] at h; simp at h
    | ok c =>
      rw [hjc] at h
      cases hcs : costsOf refEp d rest with
      | none => rw [hcs] at h; simp at h
      | some cl1 =>
        rw [hcs] at h
        simp only [Option.map_some', Option.some.injEq] at h
        subst h
        simp only [List.map_cons]
        rw [ih cl1 hcs]

/-! ### C4, C5, C6: the Optimal-Start Solver -/

/-- Price data refuting C4: the sentinel comparison `minimum_price == -1`
misfires when a candidate's cost is exactly -1. -/
def c4xPrices : EPrices :=
  [("intra-day", [(0, 0), (3600, -1), (7200, 5)]), ("day-ahead", [])]

/-- The merged reference map of `c4xPrices`. -/
def c4xRef : EPMap := [(0, 0), (3600, -1), (7200, 5)]

/-- C4 counterexample: at `current_time = 0`, `job_duration = 60` min,
`deadline = 180000` (no pruning), the candidates are `3600` with cost `-1`
and `7200` with cost `5`, yet the solver returns `7200`: the returned
candidate does not have minimal summed cost, so the claim fails on price
curves with negative prices. -/
theorem c4_counterexample :
    solverPrep 0 c4xPrices (some 60) 180000 = .ok [(3600, -1), (7200, 5)] ∧
    mergedEP c4xPrices = .ok c4xRef ∧
    jobCost c4xRef 3600 (jobHoursOf (some 60)) = .ok (-1) ∧
    jobCost c4xRef 7200 (jobHoursOf (some 60)) = .ok 5 ∧
    ((-1 : ℚ) < 5) ∧
    findOptimalStartTimeWithData 0 c4xPrices (some 60) 180000 = .ok (some 7200) := by
  have h1 : mergedEP c4xPrices = .ok c4xRef := by decide
  have h2 : solverPrep 0 c4xPrices (some 60) 180000 = .ok [(3600, -1), (7200, 5)] := by
    decide
  have h3 : jobHoursOf (some 60) = 1 := by decide
  refine ⟨h2, h1, ?_, ?_, by norm_num, ?_⟩
  · rw [h3]; norm_num [jobCost, plookup, c4xRef]
  · rw [h3]; norm_num [jobCost, plookup, c4xRef]
  · simp only [findOptimalStartTimeWithData, h1, h2, h3]
    norm_num [selectLoop, jobCost, plookup, c4xRef]

/-- C4 (amended): for every non-empty candidate set whose per-candidate
costs are all defined and all different from `-1` (in particular for every
nonnegative price curve), the solver returns the candidate whose summed
hourly cost over the job's integer-hour footprint is minimal among all
candidates, ties broken by iteration order of `ep` (the earliest candidate
attaining the minimum).  `cl` is the cost list: `costsOf` pairs each
surviving candidate, in iteration order, with its summed cost. -/
theorem c4_solver_minimum (currentTime : Int) (prices : EPrices)
    (jobDuration : Option Int) (deadline : Int) (refEp ep : EPMap)
    (cl : List (Int × ℚ))
    (href : mergedEP prices = .ok refEp)
    (hprep : solverPrep currentTime prices jobDuration deadline = .ok ep)
    (hcl : costsOf refEp (jobHoursOf jobDuration) ep = some cl)
    (hne : ∀ p ∈ cl, p.2 ≠ -1)
    (hnonempty : ep ≠ []) :
    ∃ (k : Nat) (pr : Int × ℚ), cl[k]? = some pr ∧
      findOptimalStartTimeWithData currentTime prices jobDuration deadline =
        .ok (some pr.1) ∧
      (∀ (j : Nat) (q : Int × ℚ), cl[j]? = some q → pr.2 ≤ q.2) ∧
      (∀ (j : Nat) (q : Int × ℚ), j < k → cl[j]? = some q → pr.2 < q.2) := by
  have hsel := selectLoop_eq_selectPure refEp (jobHoursOf jobDuration) ep cl (-1) none hcl
  have hpure := selectPure_init cl hne
  have hkeys := costsOf_keys refEp (jobHoursOf jobDuration) ep cl hcl
  have hclne : cl ≠ [] := by
    intro hnil
    subst hnil
    simp only [List.map_nil] at hkeys
    exact hnonempty (List.map_eq_nil_iff.mp hkeys.symm)
  cases hfa : firstArgminP cl with
  | none => exact absurd ((firstArgminP_eq_none_iff cl).mp hfa) hclne
  | some pr =>
    obtain ⟨k, hk, hmin, hpre⟩ := firstArgminP_spec cl pr hfa
    refine ⟨k, pr, hk, ?_, hmin, hpre⟩
    have hrun : findOptimalStartTimeWithData currentTime prices jobDuration deadline =
        selectLoop refEp (jobHoursOf jobDuration) ep (-1) none := by
      simp [findOptimalStartTimeWithData, href, hprep]
    rw [hrun, hsel, hpure, hfa, Option.map_some']

/-- Witness data for `c4_solver_minimum`. -/
def c4wPrices : EPrices :=
  [("intra-day", [(0, 1), (3600, 2), (7200, 3)]), ("day-ahead", [])]

theorem c4_solver_minimum_witness :
    (mergedEP c4wPrices = .ok [(0, 1), (3600, 2), (7200, 3)]) ∧
    (solverPrep 0 c4wPrices (some 60) 180000 = .ok [(3600, 2), (7200, 3)]) ∧
    (costsOf [(0, 1), (3600, 2), (7200, 3)] (jobHoursOf (some 60))
      [(3600, 2), (7200, 3)] = some [(3600, 2), (7200, 3)]) ∧
    (∀ p ∈ ([(3600, 2), (7200, 3)] : List (Int × ℚ)), p.2 ≠ -1) ∧
    (([(3600, 2), (7200, 3)] : EPMap) ≠ []) ∧
    (∃ (k : Nat) (pr : Int × ℚ),
      ([(3600, 2), (7200, 3)] : List (Int × ℚ))[k]? = some pr ∧
      findOptimalStartTimeWithData 0 c4wPrices (some 60) 180000 = .ok (some pr.1) ∧
      (∀ (j : Nat) (q : Int × ℚ),
        ([(3600, 2), (7200, 3)] : List (Int × ℚ))[j]? = some q → pr.2 ≤ q.2) ∧
      (∀ (j : Nat) (q : Int × ℚ), j < k →
        ([(3600, 2), (7200, 3)] : List (Int × ℚ))[j]? = some q → pr.2 < q.2)) :=
  ⟨by decide, by decide,
   by norm_num [costsOf, jobCost, plookup, jobHoursOf],
   by decide, by decide,
   c4_solver_minimum 0 c4wPrices (some 60) 180000 [(0, 1), (3600, 2), (7200, 3)]
     [(3600, 2), (7200, 3)] [(3600, 2), (7200, 3)]
     (by decide) (by decide)
     (by norm_num [costsOf, jobCost, plookup, jobHoursOf])
     (by decide) (by decide)⟩

/-- Price data refuting C5: all 26 hourly keys from 22:00 of day one
through 23:00 of day two, plus the hour 0 key that the past-hours removal
needs. -/
def c5xDay : EPMap := (List.range 24).map (fun i => (86400 + 3600 * (i : Int), (1 : ℚ)))

def c5xPrices : EPrices :=
  [("intra-day", [(0, 1), (79200, 1), (82800, 1)]), ("day-ahead", c5xDay)]

/-- Evaluation of the pruning phase on the C5 data: every candidate hour
from 22:00 of day one onward is removed. -/
theorem c5x_prep_eval : solverPrep 0 c5xPrices (some 60) 81900 = .ok [] := by
  have hpast : afterPastRemoval 0 c5xPrices =
      .ok ([(79200, 1), (82800, 1)] ++ c5xDay) := by decide
  simp only [solverPrep, hpast]
  norm_num [finalTimeOf, dayStart, codeCeilHour, minuteOf, secondOf,
    delHoursUpTo, delKey, plookup, c5xDay, List.range_succ]

/-- C5 counterexample: at `current_time = 0`, `job_duration = 60` min,
`deadline = 81900` (= 22:45), `deadline − duration = 78300` (= 21:45) is
not hour-aligned and the spec's formula gives
`ceil_hour(78300) = 82800` (= 23:00), so per the claim the hour
`79200` (= 22:00) must survive the pruning; it is present after the
past-hours removal, yet the pruned candidate set is empty: the code removed
hour 22:00 (it prunes from `floor_hour + 1h = 79200`), so the removed set
is not "exactly the hours ≥ ceil_hour(deadline − duration)". -/
theorem c5_counterexample :
    (81900 - 60 * 60 = 78300) ∧
    ¬(minuteOf 78300 = 0 ∧ secondOf 78300 = 0) ∧
    specCeilHour 78300 = 82800 ∧
    ((79200 : Int) < 82800) ∧
    afterPastRemoval 0 c5xPrices = .ok ([(79200, 1), (82800, 1)] ++ c5xDay) ∧
    plookup 79200 ([(79200, 1), (82800, 1)] ++ c5xDay) = some 1 ∧
    (81900 - 60 * 60 < finalTimeOf 0) ∧
    solverPrep 0 c5xPrices (some 60) 81900 = .ok [] := by
  refine ⟨by decide, by decide, by decide, by decide, by decide, by decide,
    by decide, c5x_prep_eval⟩

/-- C5 (amended): whenever `deadline − duration < final_time` and the
preparation phase succeeds, the hours removed by the pruning loop are
exactly the keys `codeCeilHour(deadline − duration) + i·1h` (`i ≥ 0`) that
lie below `final_time`, where `codeCeilHour(x) = x − minute·min −
second.s + 1h` is the start of the hour after the hour of `x` — also when
`x` is hour-aligned (the code always adds the full hour after zeroing the
minutes and seconds). -/
theorem c5_pruned_hours (currentTime : Int) (prices : EPrices) (jd deadline : Int)
    (l : EPMap)
    (hbr : deadline - jd * 60 < finalTimeOf currentTime)
    (hok : solverPrep currentTime prices (some jd) deadline = .ok l) :
    ∃ ep1, afterPastRemoval currentTime prices = .ok ep1 ∧
      ∀ k : Int, plookup k l =
        if codeCeilHour (deadline - jd * 60) ≤ k ∧ k < finalTimeOf currentTime ∧
            (k - codeCeilHour (deadline - jd * 60)) % 3600 = 0 then none
        else plookup k ep1 := by
  unfold solverPrep at hok
  cases hpr : afterPastRemoval currentTime prices with
  | error e => rw [hpr] at hok; simp at hok
  | ok ep1 =>
    rw [hpr] at hok
    rw [show (match (Except.ok ep1 : Except PyExc EPMap) with
        | .error e => (.error e : Except PyExc EPMap)
        | .ok ep =>
          match some jd with
          | none => .error .typeError
          | some jd =>
            if deadline - jd * 60 < finalTimeOf currentTime then
              delHoursUpTo (finalTimeOf currentTime)
                (codeCeilHour (deadline - jd * 60)) ep
            else .ok ep) =
        (if deadline - jd * 60 < finalTimeOf currentTime then
          delHoursUpTo (finalTimeOf currentTime)
            (codeCeilHour (deadline - jd * 60)) ep1
        else .ok ep1) from rfl] at hok
    rw [if_pos hbr] at hok
    exact ⟨ep1, rfl, fun k => delHoursUpTo_lookup _ _ _ _ hok k⟩

theorem c5_pruned_hours_witness :
    (81900 - 60 * 60 < finalTimeOf 0) ∧
    (solverPrep 0 c5xPrices (some 60) 81900 = .ok []) ∧
    (∃ ep1, afterPastRemoval 0 c5xPrices = .ok ep1 ∧
      ∀ k : Int, plookup k ([] : EPMap) =
        if codeCeilHour (81900 - 60 * 60) ≤ k ∧ k < finalTimeOf 0 ∧
            (k - codeCeilHour (81900 - 60 * 60)) % 3600 = 0 then none
        else plookup k ep1) :=
  ⟨by decide, c5x_prep_eval,
   c5_pruned_hours 0 c5xPrices 60 81900 [] (by decide) c5x_prep_eval⟩

/-- C6 counterexample: at `current_time = 0`, `job_duration = 120` min
(footprint of 2 hours), `deadline = 187200` (no pruning), the only
candidate is hour `3600`, whose second footprint hour `7200` is missing
from `ref_ep`.  The claim says such a candidate is rejected (skipped) and
the solver never raises; the code instead raises KeyError. -/
theorem c6_counterexample :
    findOptimalStartTimeWithData 0
      [("intra-day", [(0, 1), (3600, 2)]), ("day-ahead", [])]
      (some 120) 187200 = .error .keyError := by
  have h1 : mergedEP [("intra-day", [(0, 1), (3600, 2)]), ("day-ahead", [])] =
      .ok [(0, 1), (3600, 2)] := by decide
  have h2 : solverPrep 0 [("intra-day", [(0, 1), (3600, 2)]), ("day-ahead", [])]
      (some 120) 187200 = .ok [(3600, 2)] := by decide
  have h3 : jobHoursOf (some 120) = 2 := by decide
  simp only [findOptimalStartTimeWithData, h1, h2, h3]
  norm_num [selectLoop, jobCost, plookup]

/-- C6 (amended): the solver is total only on inputs whose surviving
candidates have their full integer-hour footprint inside the reference
price map: under that cover condition it returns without error. -/
theorem c6_solver_total_on_covered (currentTime : Int) (prices : EPrices)
    (jobDuration : Option Int) (deadline : Int) (refEp ep : EPMap)
    (href : mergedEP prices = .ok refEp)
    (hprep : solverPrep currentTime prices jobDuration deadline = .ok ep)
    (hcover : ∀ p ∈ ep, ∀ i : Nat, i < jobHoursOf jobDuration →
      (plookup (p.1 + 3600 * (i : Int)) refEp).isSome) :
    ∃ r, findOptimalStartTimeWithData currentTime prices jobDuration deadline =
      .ok r := by
  obtain ⟨cl, hcl⟩ := costsOf_isSome refEp (jobHoursOf jobDuration) ep hcover
  have hsel := selectLoop_eq_selectPure refEp (jobHoursOf jobDuration) ep cl (-1) none hcl
  refine ⟨selectPure cl (-1) none, ?_⟩
  simp [findOptimalStartTimeWithData, href, hprep, hsel]

theorem c6_solver_total_on_covered_witness :
    (mergedEP c4wPrices = .ok [(0, 1), (3600, 2), (7200, 3)]) ∧
    (solverPrep 0 c4wPrices (some 60) 180000 = .ok [(3600, 2), (7200, 3)]) ∧
    (∀ p ∈ ([(3600, 2), (7200, 3)] : EPMap), ∀ i : Nat, i < jobHoursOf (some 60) →
      (plookup (p.1 + 3600 * (i : Int)) [(0, 1), (3600, 2), (7200, 3)]).isSome) ∧
    (∃ r, findOptimalStartTimeWithData 0 c4wPrices (some 60) 180000 = .ok r) :=
  ⟨by decide, by decide, by decide,
   c6_solver_total_on_covered 0 c4wPrices (some 60) 180000
     [(0, 1), (3600, 2), (7200, 3)] [(3600, 2), (7200, 3)]
     (by decide) (by decide) (by decide)⟩

/-! ### C1: cron-trigger advancement CAS -/

/-- C1: for a fixed pre-advance snapshot `t`, two `advance_cron_trigger(t)`
runs against the same pre-advance store state (the second seeing the
first's effect) cannot both report `advanced = true`: the delete branch
removes the row, and the update branch is conditioned on
`next_execution_time` still equalling the snapshot value, which the first
winner changes.  A trigger that has vanished from the store yields
`advanced = false` rather than an error.  The hypothesis states that the
next fire time computed outside (`triggers.get_next_execution_time`,
spec §1 `NextFireTime`) differs from the snapshot time — a cron successor
is strictly later. -/
theorem c1_advance_cas_at_most_one
    (nextFire : Option String → Option Int → Option Int) (t : CronTriggerRow)
    (db0 : Option CronTriggerRow)
    (hnf : nextFire t.pat t.next_execution_time ≠ t.next_execution_time) :
    (¬((advance_cron_trigger nextFire t db0).1 = true ∧
       (advance_cron_trigger nextFire t
         (advance_cron_trigger nextFire t db0).2).1 = true)) ∧
    advance_cron_trigger nextFire t none = (false, none) := by
  constructor
  · by_cases hrem : nextRemaining t.remaining_executions = some 0
    · cases db0 with
      | none => simp [advance_cron_trigger, hrem]
      | some row => simp [advance_cron_trigger, hrem]
    · cases db0 with
      | none => simp [advance_cron_trigger, hrem]
      | some row =>
        by_cases hnet : row.next_execution_time = t.next_execution_time
        · simp [advance_cron_trigger, hrem, hnet, hnf]
        · simp [advance_cron_trigger, hrem, hnet]
  · by_cases hrem : nextRemaining t.remaining_executions = some 0 <;>
      simp [advance_cron_trigger, hrem]

theorem c1_advance_cas_at_most_one_witness :
    ((fun (_ : Option String) (x : Option Int) => x.map (· + 60))
        (none : Option String) (some 0) ≠ some 0) ∧
    ((¬((advance_cron_trigger (fun _ x => x.map (· + 60))
          { name := "t1", pat := some "* * * * *", next_execution_time := some 0,
            remaining_executions := none, workflow_name := "my_wf",
            workflow_id := none, trust_id := none }
          (some { name := "t1", pat := some "* * * * *",
                  next_execution_time := some 0, remaining_executions := none,
                  workflow_name := "my_wf", workflow_id := none,
                  trust_id := none })).1 = true ∧
        (advance_cron_trigger (fun _ x => x.map (· + 60))
          { name := "t1", pat := some "* * * * *", next_execution_time := some 0,
            remaining_executions := none, workflow_name := "my_wf",
            workflow_id := none, trust_id := none }
          (advance_cron_trigger (fun _ x => x.map (· + 60))
            { name := "t1", pat := some "* * * * *", next_execution_time := some 0,
              remaining_executions := none, workflow_name := "my_wf",
              workflow_id := none, trust_id := none }
            (some { name := "t1", pat := some "* * * * *",
                    next_execution_time := some 0, remaining_executions := none,
                    workflow_name := "my_wf", workflow_id := none,
                    trust_id := none })).2).1 = true)) ∧
      advance_cron_trigger (fun _ x => x.map (· + 60))
        { name := "t1", pat := some "* * * * *", next_execution_time := some 0,
          remaining_executions := none, workflow_name := "my_wf",
          workflow_id := none, trust_id := none } none = (false, none)) :=
  ⟨by decide,
   c1_advance_cas_at_most_one (fun _ x => x.map (· + 60))
     { name := "t1", pat := some "* * * * *", next_execution_time := some 0,
       remaining_executions := none, workflow_name := "my_wf",
       workflow_id := none, trust_id := none }
     (some { name := "t1", pat := some "* * * * *", next_execution_time := some 0,
             remaining_executions := none, workflow_name := "my_wf",
             workflow_id := none, trust_id := none })
     (by decide)⟩

/-! ### C2: the 'immediately' tick -/

/-- C2 (code evaluation): in 'immediately' mode the tick raises
AttributeError on every store state — the loop header calls
`dtw.get_delay_tolerant_workload_with_execution()`, an attribute that
`mistral/services/delay_tolerant_workload.py` does not define — so no DTW
has `executed` set and `start_workflow` is never invoked, while the
repository's own test `test_dtw_scheduling.test_start_workflow` expects
`executed = true` and an empty unscheduled set after the tick. -/
theorem c2_immediate_tick_attribute_error (fetch : HttpFetch) (now : Int)
    (st : TickState) :
    processDelayTolerantWorkload "immediately" fetch now st =
      .error .attributeError := rfl

/-! ### C3 and C10: the DTW create service -/

/-- C3: a successful Create persists `executed = false`,
`scheduled = false`, `scope = private`, and `deadline ≥ created_at + 60 s`;
Create raises InvalidModel when the parser raises ValueError (unparseable
deadline string) and when the parsed deadline is earlier than
`now + 60 s`. -/
theorem c3_create_flags_and_deadline
    (parse : Option String → Except PyExc Int) (now : Int)
    (wfRes : Except PyExc (String × String)) (trustId : Option String)
    (n : String) (deadlineStr : Option String) (jobDuration : Option Int) :
    (∀ row, create_delay_tolerant_workload parse now wfRes trustId
        n deadlineStr jobDuration = .ok row →
      row.executed = false ∧ row.scheduled = false ∧ row.scope = "private" ∧
        row.created_at + 60 ≤ row.deadline) ∧
    (parse deadlineStr = .error .valueError →
      create_delay_tolerant_workload parse now wfRes trustId
        n deadlineStr jobDuration = .error .invalidModel) ∧
    (∀ dl, parse deadlineStr = .ok dl → dl < now + 60 →
      create_delay_tolerant_workload parse now wfRes trustId
        n deadlineStr jobDuration = .error .invalidModel) := by
  refine ⟨?_, ?_, ?_⟩
  · intro row h
    unfold create_delay_tolerant_workload at h
    split at h
    · exact absurd h (by simp)
    · exact absurd h (by simp)
    · rename_i dl
      split at h
      · exact absurd h (by simp)
      · rename_i hlt
        split at h
        · exact absurd h (by simp)
        · simp only [Except.ok.injEq] at h
          subst h
          refine ⟨rfl, rfl, rfl, ?_⟩
          dsimp only
          omega
  · intro hp
    unfold create_delay_tolerant_workload
    rw [hp]
  · intro dl hp hlt
    unfold create_delay_tolerant_workload
    simp only [hp]
    rw [if_pos hlt]

/-- A concrete stand-in for `dateutil.parser.parse` in the witnesses. -/
def c3wParse : Option String → Except PyExc Int
  | some s => if s = "2016-07-23T00:00:00" then .ok 1000 else
      if s = "2016-07-23T00:01:00" then .ok 10 else .error .valueError
  | none => .error .typeError

theorem c3_create_flags_and_deadline_witness :
    (create_delay_tolerant_workload c3wParse 0 (.ok ("my_wf", "wid"))
        (some "my_trust_id") "dtw_test" (some "2016-07-23T00:00:00") (some 4) =
      .ok { name := "dtw_test", workflow_name := "my_wf", workflow_id := "wid",
            deadline := 1000, job_duration := some 4, scope := "private",
            executed := false, scheduled := false,
            trust_id := some "my_trust_id", created_at := 0 }) ∧
    ({ name := "dtw_test", workflow_name := "my_wf", workflow_id := "wid",
       deadline := 1000, job_duration := some 4, scope := "private",
       executed := false, scheduled := false,
       trust_id := some "my_trust_id", created_at := 0 : DtwRow }.executed = false ∧
     { name := "dtw_test", workflow_name := "my_wf", workflow_id := "wid",
       deadline := 1000, job_duration := some 4, scope := "private",
       executed := false, scheduled := false,
       trust_id := some "my_trust_id", created_at := 0 : DtwRow }.scheduled = false ∧
     { name := "dtw_test", workflow_name := "my_wf", workflow_id := "wid",
       deadline := 1000, job_duration := some 4, scope := "private",
       executed := false, scheduled := false,
       trust_id := some "my_trust_id", created_at := 0 : DtwRow }.scope = "private" ∧
     { name := "dtw_test", workflow_name := "my_wf", workflow_id := "wid",
       deadline := 1000, job_duration := some 4, scope := "private",
       executed := false, scheduled := false,
       trust_id := some "my_trust_id", created_at := 0 : DtwRow }.created_at + 60 ≤
     { name := "dtw_test", workflow_name := "my_wf", workflow_id := "wid",
       deadline := 1000, job_duration := some 4, scope := "private",
       executed := false, scheduled := false,
       trust_id := some "my_trust_id", created_at := 0 : DtwRow }.deadline) ∧
    (create_delay_tolerant_workload c3wParse 0 (.ok ("my_wf", "wid"))
        (some "my_trust_id") "dtw_test" (some "not a date") (some 4) =
      .error .invalidModel) ∧
    (create_delay_tolerant_workload c3wParse 0 (.ok ("my_wf", "wid"))
        (some "my_trust_id") "dtw_test" (some "2016-07-23T00:01:00") (some 4) =
      .error .invalidModel) :=
  ⟨by decide,
   (c3_create_flags_and_deadline c3wParse 0 (.ok ("my_wf", "wid"))
     (some "my_trust_id") "dtw_test" (some "2016-07-23T00:00:00") (some 4)).1
     _ (by decide),
   (c3_create_flags_and_deadline c3wParse 0 (.ok ("my_wf", "wid"))
     (some "my_trust_id") "dtw_test" (some "not a date") (some 4)).2.1 (by decide),
   (c3_create_flags_and_deadline c3wParse 0 (.ok ("my_wf", "wid"))
     (some "my_trust_id") "dtw_test" (some "2016-07-23T00:01:00") (some 4)).2.2
     10 (by decide) (by decide)⟩

/-- C10: when the REST body omits the deadline, the controller forwards
`None`; dateutil's parse raises TypeError on `None`, and since the service
translates only ValueError to InvalidModel, the create interface fails
with the TypeError (a 500-class error), not with InvalidModel. -/
theorem c10_none_deadline_not_invalid_model
    (parse : Option String → Except PyExc Int) (now : Int)
    (wfRes : Except PyExc (String × String)) (trustId : Option String)
    (body : DtwPostBody)
    (hdl : body.deadline = none)
    (hparse : parse none = .error .typeError) :
    dtwControllerPost parse now wfRes trustId body = .error .typeError ∧
    PyExc.typeError ≠ PyExc.invalidModel := by
  constructor
  · unfold dtwControllerPost create_delay_tolerant_workload
    rw [hdl, hparse]
  · decide

theorem c10_none_deadline_not_invalid_model_witness :
    (({ name := "dtw_test", deadline := none, job_duration := some 4 } :
        DtwPostBody).deadline = none) ∧
    (c3wParse none = .error .typeError) ∧
    (dtwControllerPost c3wParse 0 (.ok ("my_wf", "wid")) (some "my_trust_id")
        { name := "dtw_test", deadline := none, job_duration := some 4 } =
      .error .typeError ∧
     PyExc.typeError ≠ PyExc.invalidModel) :=
  ⟨rfl, rfl,
   c10_none_deadline_not_invalid_model c3wParse 0 (.ok ("my_wf", "wid"))
     (some "my_trust_id")
     { name := "dtw_test", deadline := none, job_duration := some 4 }
     rfl rfl⟩

/-! ### C7: the price oracle -/

/-- C7 counterexample: a response whose body is not parseable JSON makes
`_get_energy_prices` raise ValueError from `.json()` — only
`requests.ConnectionError` is caught, so the error propagates instead of
yielding None; and a non-2xx response with a JSON body is returned as-is,
also not None. -/
theorem c7_counterexample :
    getEnergyPrices (.response 500 none) = .error .valueError ∧
    getEnergyPrices (.response 500 (some [("intra-day", [])])) =
      .ok (some [("intra-day", [])]) :=
  ⟨rfl, rfl⟩

/-- C7 (amended): `GetPrices` returns None exactly on a connection error.
The HTTP status is never inspected — any response with a JSON body is
returned as-is, 2xx or not — and a malformed JSON body raises ValueError,
which propagates to the caller. -/
theorem c7_oracle_nil_only_on_conn_error :
    getEnergyPrices .connError = .ok none ∧
    (∀ status : Nat, getEnergyPrices (.response status none) =
      .error .valueError) ∧
    (∀ (status : Nat) (j : EPrices), getEnergyPrices (.response status (some j)) =
      .ok (some j)) :=
  ⟨rfl, fun _ => rfl, fun _ _ => rfl⟩


/-! ### Helper lemmas for the policy-loop ticks -/

theorem updateDtwScheduled_ok_iff (n : String) (l l' : List DtwRow) :
    updateDtwScheduled n l = .ok l' ↔
      l.any (fun r => r.name = n) = true ∧
      l' = l.map (fun r => if r.name = n then { r with scheduled := true } else r) := by
  unfold updateDtwScheduled
  by_cases h : l.any (fun r => r.name = n) = true
  · rw [if_pos h]
    simp only [Except.ok.injEq, h, true_and]
    exact ⟨fun he => he.symm, fun he => he.symm⟩
  · rw [if_neg h]
    constructor
    · intro he; exact absurd he (by simp)
    · intro hc; exact absurd hc.1 h

theorem updateDtwExecuted_ok_iff (n : String) (l l' : List DtwRow) :
    updateDtwExecuted n l = .ok l' ↔
      l.any (fun r => r.name = n) = true ∧
      l' = l.map (fun r => if r.name = n then { r with executed := true } else r) := by
  unfold updateDtwExecuted
  by_cases h : l.any (fun r => r.name = n) = true
  · rw [if_pos h]
    simp only [Except.ok.injEq, h, true_and]
    exact ⟨fun he => he.symm, fun he => he.symm⟩
  · rw [if_neg h]
    constructor
    · intro he; exact absurd he (by simp)
    · intro hc; exact absurd hc.1 h

theorem create_cron_trigger_ok_iff (trigs : List CronTriggerRow) (n wfName : String)
    (count : Option Int) (firstTime : Option Int) (wfId : Option String)
    (trustId : Option String) (trigs' : List CronTriggerRow) :
    create_cron_trigger trigs n wfName count firstTime wfId trustId = .ok trigs' ↔
      trigs.any (fun tr => tr.name = n) = false ∧
      trigs' = trigs ++ [{ name := n, pat := none,
                           next_execution_time := firstTime,
                           remaining_executions := count,
                           workflow_name := wfName,
                           workflow_id := wfId, trust_id := trustId }] := by
  unfold create_cron_trigger
  by_cases h : trigs.any (fun tr => tr.name = n) = true
  · rw [if_pos h]
    constructor
    · intro he; exact absurd he (by simp)
    · intro hc
      rw [h] at hc
      exact absurd hc.1 (by simp)
  · rw [if_neg h]
    simp only [Except.ok.injEq]
    constructor
    · intro he
      exact ⟨Bool.eq_false_iff.mpr (fun hb => h hb), he.symm⟩
    · intro hc; exact hc.2.symm

theorem filter_length_map_of_pres (f : DtwRow → DtwRow) (p : DtwRow → Bool) :
    ∀ l : List DtwRow, (∀ r, p (f r) = p r) →
    ((l.map f).filter p).length = (l.filter p).length := by
  intro l hf
  induction l with
  | nil => rfl
  | cons r l ih =>
    simp only [List.map_cons, List.filter_cons, hf]
    cases hp : p r with
    | false => simp [ih]
    | true => simp [ih]

/-- The effect of one successful last-minute body step. -/
theorem lastMinuteBody_ok (st st' : TickState) (d : DtwRow)
    (h : lastMinuteBody st d = .ok st') :
    ∃ jd, d.job_duration = some jd ∧
      st'.dtws = st.dtws.map
        (fun r => if r.name = d.name then { r with scheduled := true } else r) ∧
      st'.triggers = st.triggers ++
        [{ name := d.name, pat := none,
           next_execution_time := some (d.deadline - 60 * jd),
           remaining_executions := some 1, workflow_name := d.workflow_name,
           workflow_id := some d.workflow_id, trust_id := d.trust_id }] ∧
      st'.calls = st.calls := by

  unfold lastMinuteBody at h
  split at h
  · exact absurd h (by simp)
  · rename_i dtws hu
    split at h
    · exact absurd h (by simp)
    · rename_i jd hjd
      split at h
      · exact absurd h (by simp)
      · rename_i trigs hc
        simp only [Except.ok.injEq] at h
        subst h
        refine ⟨jd, hjd, ?_, ?_, rfl⟩
        · exact ((updateDtwScheduled_ok_iff _ _ _).mp hu).2
        · exact ((create_cron_trigger_ok_iff _ _ _ _ _ _ _ _).mp hc).2

/-- State facts preserved by the remainder of a last-minute tick. -/
theorem lastMinute_processList_preserves :
    ∀ (ds : List DtwRow) (st st' : TickState),
    processList lastMinuteBody st ds = .ok st' →
    (∀ tr ∈ st.triggers, tr ∈ st'.triggers) ∧
    (∀ r ∈ st.dtws, ∃ r', r' ∈ st'.dtws ∧ r'.name = r.name ∧
      r'.executed = r.executed ∧ (r.scheduled = true → r'.scheduled = true)) ∧
    (st'.dtws.filter (fun r => r.executed = false)).length =
      (st.dtws.filter (fun r => r.executed = false)).length := by
  intro ds
  induction ds with
  | nil =>
    intro st st' h
    have h2 : (Except.ok st : Except PyExc TickState) = .ok st' := h
    simp only [Except.ok.injEq] at h2
    subst h2
    exact ⟨fun tr htr => htr, fun r hr => ⟨r, hr, rfl, rfl, fun hs => hs⟩, rfl⟩
  | cons d0 ds ih =>
    intro st st' h
    simp only [processList] at h
    cases hb : lastMinuteBody st d0 with
    | error e => rw [hb] at h; simp at h
    | ok st1 =>
      rw [hb] at h
      have h1 : processList lastMinuteBody st1 ds = .ok st' := h
      obtain ⟨jd, _, hdtws, htrigs, _⟩ := lastMinuteBody_ok st st1 d0 hb
      obtain ⟨ihtr, ihrow, ihlen⟩ := ih st1 st' h1
      refine ⟨?_, ?_, ?_⟩
      · intro tr htr
        exact ihtr tr (by rw [htrigs]; exact List.mem_append_left _ htr)
      · intro r hr
        have hmem : (if r.name = d0.name then { r with scheduled := true } else r) ∈
            st1.dtws := by
          rw [hdtws]
          exact List.mem_map_of_mem _ hr
        obtain ⟨r', hr', hname, hexec, hsch⟩ := ihrow _ hmem
        by_cases hn : r.name = d0.name
        · rw [if_pos hn] at hname hexec hsch
          exact ⟨r', hr', hname, hexec, fun _ => hsch rfl⟩
        · rw [if_neg hn] at hname hexec hsch
          exact ⟨r', hr', hname, hexec, hsch⟩
      · rw [ihlen, hdtws]
        apply filter_length_map_of_pres
        intro r
        by_cases hn : r.name = d0.name
        · rw [if_pos hn]
        · rw [if_neg hn]

/-- Per-item conclusions of a successful last-minute tick, generalised over
the snapshot list being processed. -/
theorem lastMinute_processList_spec :
    ∀ (ds : List DtwRow) (st st' : TickState),
    processList lastMinuteBody st ds = .ok st' →
    ∀ d ∈ ds, (∃ r, r ∈ st.dtws ∧ r.name = d.name ∧ r.executed = d.executed) →
      (∃ r', r' ∈ st'.dtws ∧ r'.name = d.name ∧ r'.scheduled = true ∧
        r'.executed = d.executed) ∧
      (∃ jd, d.job_duration = some jd ∧
        ∃ tr, tr ∈ st'.triggers ∧ tr.name = d.name ∧
          tr.remaining_executions = some 1 ∧
          tr.next_execution_time = some (d.deadline - 60 * jd) ∧
          tr.trust_id = d.trust_id ∧ tr.workflow_name = d.workflow_name) := by
  intro ds
  induction ds with
  | nil => intro st st' h d hd; simp at hd
  | cons d0 ds ih =>
    intro st st' h d hd hrow
    simp only [processList] at h
    cases hb : lastMinuteBody st d0 with
    | error e => rw [hb] at h; simp at h
    | ok st1 =>
      rw [hb] at h
      have h1 : processList lastMinuteBody st1 ds = .ok st' := h
      obtain ⟨jd, hjd, hdtws, htrigs, _⟩ := lastMinuteBody_ok st st1 d0 hb
      obtain ⟨ptr, prow, _⟩ := lastMinute_processList_preserves ds st1 st' h1
      rcases List.mem_cons.mp hd with heq | hmem
      · subst heq
        obtain ⟨r, hr, hname, hexec⟩ := hrow
        constructor
        · have hmem1 : ({ r with scheduled := true } : DtwRow) ∈ st1.dtws := by
            rw [hdtws]
            refine List.mem_map.mpr ⟨r, hr, ?_⟩
            show (if r.name = d.name then { r with scheduled := true } else r) =
              { r with scheduled := true }
            rw [if_pos hname]
          obtain ⟨r', hr', hname', hexec', hsch'⟩ := prow _ hmem1
          exact ⟨r', hr', hname'.trans hname, hsch' rfl, hexec'.trans hexec⟩
        · refine ⟨jd, hjd, ?_⟩
          have htr1 : ({ name := d.name, pat := none,
                         next_execution_time := some (d.deadline - 60 * jd),
                         remaining_executions := some 1,
                         workflow_name := d.workflow_name,
                         workflow_id := some d.workflow_id,
                         trust_id := d.trust_id } :
              CronTriggerRow) ∈ st1.triggers := by
            rw [htrigs]
            exact List.mem_append_right _ (by simp)
          exact ⟨_, ptr _ htr1, rfl, rfl, rfl, rfl, rfl⟩
      · apply ih st1 st' h1 d hmem
        obtain ⟨r, hr, hname, hexec⟩ := hrow
        refine ⟨if r.name = d0.name then { r with scheduled := true } else r, ?_, ?_, ?_⟩
        · rw [hdtws]; exact List.mem_map_of_mem _ hr
        · by_cases hn : r.name = d0.name
          · rw [if_pos hn]; exact hname
          · rw [if_neg hn]; exact hname
        · by_cases hn : r.name = d0.name
          · rw [if_pos hn]; exact hexec
          · rw [if_neg hn]; exact hexec

/-- C8: every DTW `d` processed by a last-minute tick ends with
`scheduled = true` and `executed` unchanged — so the set of rows with
`executed = false` keeps its size — and a one-shot cron trigger named
`d.name` exists with `remaining_executions = some 1` (count 1), first
start time `d.deadline − d.job_duration` minutes, and
`trust_id = d.trust_id`. -/
theorem c8_last_minute_tick (st st' : TickState)
    (h : dtwLastMinuteTick st = .ok st') :
    (∀ d ∈ st.dtws, d.executed = false →
      (∃ r', r' ∈ st'.dtws ∧ r'.name = d.name ∧ r'.scheduled = true ∧
        r'.executed = d.executed) ∧
      (∃ jd, d.job_duration = some jd ∧
        ∃ tr, tr ∈ st'.triggers ∧ tr.name = d.name ∧
          tr.remaining_executions = some 1 ∧
          tr.next_execution_time = some (d.deadline - 60 * jd) ∧
          tr.trust_id = d.trust_id ∧ tr.workflow_name = d.workflow_name)) ∧
    (st'.dtws.filter (fun r => r.executed = false)).length =
      (st.dtws.filter (fun r => r.executed = false)).length := by
  constructor
  · intro d hd hex
    apply lastMinute_processList_spec _ st st' h d
    · exact List.mem_filter.mpr ⟨hd, by simp [hex]⟩
    · exact ⟨d, hd, rfl, rfl⟩
  · exact (lastMinute_processList_preserves _ st st' h).2.2

/-- Witness data for the tick theorems. -/
def c8wD : DtwRow :=
  { name := "dtw1", workflow_name := "my_wf", workflow_id := "wid",
    deadline := 172800, job_duration := some 600, scope := "private",
    executed := false, scheduled := false, trust_id := some "my_trust_id",
    created_at := 0 }

def c8wSt : TickState := { dtws := [c8wD], triggers := [], calls := [] }

def c8wStAfter : TickState :=
  { dtws := [{ c8wD with scheduled := true }],
    triggers := [{ name := "dtw1", pat := none,
                   next_execution_time := some 136800,
                   remaining_executions := some 1, workflow_name := "my_wf",
                   workflow_id := some "wid",
                   trust_id := some "my_trust_id" }],
    calls := [] }

theorem c8_last_minute_tick_witness :
    (dtwLastMinuteTick c8wSt = .ok c8wStAfter) ∧
    ((∀ d ∈ c8wSt.dtws, d.executed = false →
      (∃ r', r' ∈ c8wStAfter.dtws ∧ r'.name = d.name ∧ r'.scheduled = true ∧
        r'.executed = d.executed) ∧
      (∃ jd, d.job_duration = some jd ∧
        ∃ tr, tr ∈ c8wStAfter.triggers ∧ tr.name = d.name ∧
          tr.remaining_executions = some 1 ∧
          tr.next_execution_time = some (d.deadline - 60 * jd) ∧
          tr.trust_id = d.trust_id ∧ tr.workflow_name = d.workflow_name)) ∧
    (c8wStAfter.dtws.filter (fun r => r.executed = false)).length =
      (c8wSt.dtws.filter (fun r => r.executed = false)).length) :=
  ⟨by decide, c8_last_minute_tick c8wSt c8wStAfter (by decide)⟩

/-- The effect of one successful energy-aware body step. -/
theorem energyAwareBody_ok (fetch : HttpFetch) (now : Int) (st st' : TickState)
    (d : DtwRow) (h : energyAwareBody fetch now st d = .ok st') :
    (jdLongTerm d.job_duration = true →
      st'.triggers = st.triggers ∧
      ((st'.dtws = st.dtws ∧ st'.calls = st.calls) ∨
       (st'.dtws = st.dtws.map
          (fun r => if r.name = d.name then { r with executed := true } else r) ∧
        st'.calls = st.calls ++ [mkDtwCall d]))) ∧
    (jdLongTerm d.job_duration = false →
      st'.dtws = st.dtws ∧ st'.calls = st.calls ∧
      ∃ schedTime,
        determineOptimalScheduling fetch now d.job_duration d.deadline =
          .ok schedTime ∧
        st'.triggers = st.triggers ++
          [{ name := d.name, pat := none, next_execution_time := schedTime,
             remaining_executions := some 1, workflow_name := d.workflow_name,
             workflow_id := some d.workflow_id, trust_id := none }]) := by
  unfold energyAwareBody at h
  by_cases hlong : jdLongTerm d.job_duration = true
  · rw [if_pos hlong] at h
    simp only [Except.ok.injEq] at h
    subst h
    refine ⟨fun _ => ?_, fun hfalse => absurd hlong (by simp [hfalse])⟩
    unfold energyLongBranch
    cases hu : updateDtwExecuted d.name st.dtws with
    | error e => exact ⟨rfl, Or.inl ⟨rfl, rfl⟩⟩
    | ok dtws =>
      exact ⟨rfl, Or.inr ⟨((updateDtwExecuted_ok_iff _ _ _).mp hu).2, rfl⟩⟩
  · rw [if_neg hlong] at h
    split at h
    · exact absurd h (by simp)
    · rename_i schedTime hdet
      split at h
      · exact absurd h (by simp)
      · rename_i trigs hc
        simp only [Except.ok.injEq] at h
        subst h
        refine ⟨fun htrue => absurd htrue hlong,
          fun _ => ⟨rfl, rfl, schedTime, hdet, ?_⟩⟩
        exact ((create_cron_trigger_ok_iff _ _ _ _ _ _ _ _).mp hc).2

/-- State facts preserved by the remainder of an energy-aware tick. -/
theorem energy_processList_preserves (fetch : HttpFetch) (now : Int) :
    ∀ (ds : List DtwRow) (st st' : TickState),
    processList (energyAwareBody fetch now) st ds = .ok st' →
    (∀ tr ∈ st.triggers, tr ∈ st'.triggers) ∧
    (∀ c ∈ st.calls, c ∈ st'.calls) ∧
    (∀ r ∈ st.dtws, ∃ r', r' ∈ st'.dtws ∧ r'.name = r.name ∧
      (r.executed = true → r'.executed = true)) := by
  intro ds
  induction ds with
  | nil =>
    intro st st' h
    have h2 : (Except.ok st : Except PyExc TickState) = .ok st' := h
    simp only [Except.ok.injEq] at h2
    subst h2
    exact ⟨fun tr htr => htr, fun c hc => hc, fun r hr => ⟨r, hr, rfl, fun hx => hx⟩⟩
  | cons d0 ds ih =>
    intro st st' h
    simp only [processList] at h
    cases hb : energyAwareBody fetch now st d0 with
    | error e => rw [hb] at h; simp at h
    | ok st1 =>
      rw [hb] at h
      have h1 : processList (energyAwareBody fetch now) st1 ds = .ok st' := h
      obtain ⟨ihtr, ihcall, ihrow⟩ := ih st1 st' h1
      obtain ⟨hlongcase, hshortcase⟩ := energyAwareBody_ok fetch now st st1 d0 hb
      cases hjl : jdLongTerm d0.job_duration with
      | true =>
        obtain ⟨htrig, hrest⟩ := hlongcase hjl
        refine ⟨fun tr htr => ihtr tr (htrig ▸ htr), ?_, ?_⟩
        · intro c hc
          rcases hrest with ⟨_, hcalls⟩ | ⟨_, hcalls⟩
          · exact ihcall c (hcalls ▸ hc)
          · exact ihcall c (by rw [hcalls]; exact List.mem_append_left _ hc)
        · intro r hr
          rcases hrest with ⟨hdtws, _⟩ | ⟨hdtws, _⟩
          · exact ihrow r (hdtws ▸ hr)
          · have hmem : (if r.name = d0.name then { r with executed := true } else r) ∈
                st1.dtws := by
              rw [hdtws]; exact List.mem_map_of_mem _ hr
            obtain ⟨r', hr', hname, hx⟩ := ihrow _ hmem
            by_cases hn : r.name = d0.name
            · rw [if_pos hn] at hname hx
              exact ⟨r', hr', hname, fun _ => hx rfl⟩
            · rw [if_neg hn] at hname hx
              exact ⟨r', hr', hname, hx⟩
      | false =>
        obtain ⟨hdtws, hcalls, schedTime, _, htrigs⟩ := hshortcase hjl
        refine ⟨?_, fun c hc => ihcall c (hcalls ▸ hc), fun r hr => ihrow r (hdtws ▸ hr)⟩
        intro tr htr
        exact ihtr tr (by rw [htrigs]; exact List.mem_append_left _ htr)

/-- Per-item conclusions of a successful energy-aware tick, generalised
over the snapshot list being processed. -/
theorem energy_processList_spec (fetch : HttpFetch) (now : Int) :
    ∀ (ds : List DtwRow) (st st' : TickState),
    processList (energyAwareBody fetch now) st ds = .ok st' →
    ∀ d ∈ ds, (∃ r, r ∈ st.dtws ∧ r.name = d.name) →
      (jdLongTerm d.job_duration = true →
        (∃ r', r' ∈ st'.dtws ∧ r'.name = d.name ∧ r'.executed = true) ∧
        mkDtwCall d ∈ st'.calls) ∧
      (jdLongTerm d.job_duration = false →
        ∃ schedTime,
          determineOptimalScheduling fetch now d.job_duration d.deadline =
            .ok schedTime ∧
          ∃ tr, tr ∈ st'.triggers ∧ tr.name = d.name ∧
            tr.remaining_executions = some 1 ∧
            tr.next_execution_time = schedTime ∧ tr.trust_id = none ∧
            tr.workflow_name = d.workflow_name) := by
  intro ds
  induction ds with
  | nil => intro st st' h d hd; simp at hd
  | cons d0 ds ih =>
    intro st st' h d hd hrow
    simp only [processList] at h
    cases hb : energyAwareBody fetch now st d0 with
    | error e => rw [hb] at h; simp at h
    | ok st1 =>
      rw [hb] at h
      have h1 : processList (energyAwareBody fetch now) st1 ds = .ok st' := h
      obtain ⟨ptr, pcall, prow⟩ := energy_processList_preserves fetch now ds st1 st' h1
      obtain ⟨hlongcase, hshortcase⟩ := energyAwareBody_ok fetch now st st1 d0 hb
      rcases List.mem_cons.mp hd with heq | hmem
      · subst heq
        obtain ⟨r, hr, hname⟩ := hrow
        constructor
        · intro hjl
          have hany : st.dtws.any (fun r => r.name = d.name) = true :=
            List.any_eq_true.mpr ⟨r, hr, by simp [hname]⟩
          have hu : updateDtwExecuted d.name st.dtws =
              .ok (st.dtws.map
                (fun r => if r.name = d.name then { r with executed := true } else r)) :=
            (updateDtwExecuted_ok_iff _ _ _).mpr ⟨hany, rfl⟩
          have hbody : energyAwareBody fetch now st d =
              .ok { st with
                      dtws := st.dtws.map
                        (fun r => if r.name = d.name then { r with executed := true } else r),
                      calls := st.calls ++ [mkDtwCall d] } := by
            unfold energyAwareBody energyLongBranch
            rw [if_pos hjl, hu]
          rw [hb] at hbody
          simp only [Except.ok.injEq] at hbody
          constructor
          · have hmem1 : ({ r with executed := true } : DtwRow) ∈ st1.dtws := by
              rw [hbody]
              refine List.mem_map.mpr ⟨r, hr, ?_⟩
              show (if r.name = d.name then { r with executed := true } else r) =
                { r with executed := true }
              rw [if_pos hname]
            obtain ⟨r', hr', hname', hx'⟩ := prow _ hmem1
            exact ⟨r', hr', hname'.trans hname, hx' rfl⟩
          · apply pcall
            show mkDtwCall d ∈ st1.calls
            rw [hbody]
            exact List.mem_append_right _ (by simp)
        · intro hjl
          obtain ⟨_, _, schedTime, hdet, htrigs⟩ := hshortcase hjl
          refine ⟨schedTime, hdet, ?_⟩
          have htr1 : ({ name := d.name, pat := none,
                         next_execution_time := schedTime,
                         remaining_executions := some 1,
                         workflow_name := d.workflow_name,
                         workflow_id := some d.workflow_id,
                         trust_id := none } : CronTriggerRow) ∈ st1.triggers := by
            rw [htrigs]
            exact List.mem_append_right _ (by simp)
          exact ⟨_, ptr _ htr1, rfl, rfl, rfl, rfl, rfl⟩
      · apply ih st1 st' h1 d hmem
        obtain ⟨r, hr, hname⟩ := hrow
        cases hjl : jdLongTerm d0.job_duration with
        | true =>
          obtain ⟨_, hrest⟩ := hlongcase hjl
          rcases hrest with ⟨hdtws, _⟩ | ⟨hdtws, _⟩
          · exact ⟨r, hdtws ▸ hr, hname⟩
          · refine ⟨if r.name = d0.name then { r with executed := true } else r, ?_, ?_⟩
            · rw [hdtws]; exact List.mem_map_of_mem _ hr
            · by_cases hn : r.name = d0.name
              · rw [if_pos hn]; exact hname
              · rw [if_neg hn]; exact hname
        | false =>
          obtain ⟨hdtws, _, _⟩ := hshortcase hjl
          exact ⟨r, hdtws ▸ hr, hname⟩

/-- C9: in a successful energy-aware tick, every DTW with `executed =
false` whose `job_duration` exceeds 360 minutes is treated as Immediate —
its row ends with `executed = true` and `start_workflow` is called with
the DTW description — and every other one is deferred via a one-shot cron
trigger (count 1, no trust id) whose start time is the result of
`_determine_optimal_scheduling`; that result is `now + 2 min` when the
oracle yields nil and the solver's output when the oracle yields a
non-empty price object. -/
theorem c9_energy_aware_tick (fetch : HttpFetch) (now : Int) (st st' : TickState)
    (h : dtwEnergyAwareTick fetch now st = .ok st') :
    (∀ d ∈ st.dtws, d.executed = false →
      (jdLongTerm d.job_duration = true →
        (∃ r', r' ∈ st'.dtws ∧ r'.name = d.name ∧ r'.executed = true) ∧
        mkDtwCall d ∈ st'.calls) ∧
      (jdLongTerm d.job_duration = false →
        ∃ schedTime,
          determineOptimalScheduling fetch now d.job_duration d.deadline =
            .ok schedTime ∧
          ∃ tr, tr ∈ st'.triggers ∧ tr.name = d.name ∧
            tr.remaining_executions = some 1 ∧
            tr.next_execution_time = schedTime ∧ tr.trust_id = none ∧
            tr.workflow_name = d.workflow_name)) ∧
    (∀ (jd : Option Int) (dl : Int),
      determineOptimalScheduling .connError now jd dl = .ok (some (now + 120))) ∧
    (∀ jd : Int, jdLongTerm (some jd) = true ↔ 360 < jd) ∧
    (∀ (status : Nat) (p : EPrices) (jd : Option Int) (dl : Int), p ≠ [] →
      determineOptimalScheduling (.response status (some p)) now jd dl =
        findOptimalStartTimeWithData now p jd dl) := by
  refine ⟨?_, fun _ _ => rfl, ?_, ?_⟩
  · intro d hd hex
    apply energy_processList_spec fetch now _ st st' h d
    · exact List.mem_filter.mpr ⟨hd, by simp [hex]⟩
    · exact ⟨d, hd, rfl⟩
  · intro jd
    simp [jdLongTerm]
  · intro status p jd dl hp
    cases p with
    | nil => exact absurd rfl hp
    | cons a l => rfl

/-- Witness data for the energy-aware tick theorem: one long-term DTW
(400 min) and one short-term DTW (30 min), with the oracle unavailable. -/
def c9wD1 : DtwRow :=
  { name := "dtw1", workflow_name := "my_wf", workflow_id := "wid",
    deadline := 172800, job_duration := some 400, scope := "private",
    executed := false, scheduled := false, trust_id := some "my_trust_id",
    created_at := 0 }

def c9wD2 : DtwRow :=
  { name := "dtw2", workflow_name := "my_wf", workflow_id := "wid",
    deadline := 172800, job_duration := some 30, scope := "private",
    executed := false, scheduled := false, trust_id := some "my_trust_id",
    created_at := 0 }

def c9wSt : TickState := { dtws := [c9wD1, c9wD2], triggers := [], calls := [] }

def c9wStAfter : TickState :=
  { dtws := [{ c9wD1 with executed := true }, c9wD2],
    triggers := [{ name := "dtw2", pat := none,
                   next_execution_time := some 120,
                   remaining_executions := some 1, workflow_name := "my_wf",
                   workflow_id := some "wid", trust_id := none }],
    calls := [{ workflow := "my_wf",
                description := "DTW Workflow execution created." }] }

theorem c9_energy_aware_tick_witness :
    (dtwEnergyAwareTick .connError 0 c9wSt = .ok c9wStAfter) ∧
    ((∀ d ∈ c9wSt.dtws, d.executed = false →
      (jdLongTerm d.job_duration = true →
        (∃ r', r' ∈ c9wStAfter.dtws ∧ r'.name = d.name ∧ r'.executed = true) ∧
        mkDtwCall d ∈ c9wStAfter.calls) ∧
      (jdLongTerm d.job_duration = false →
        ∃ schedTime,
          determineOptimalScheduling .connError 0 d.job_duration d.deadline =
            .ok schedTime ∧
          ∃ tr, tr ∈ c9wStAfter.triggers ∧ tr.name = d.name ∧
            tr.remaining_executions = some 1 ∧
            tr.next_execution_time = schedTime ∧ tr.trust_id = none ∧
            tr.workflow_name = d.workflow_name)) ∧
    (∀ (jd : Option Int) (dl : Int),
      determineOptimalScheduling .connError 0 jd dl = .ok (some (0 + 120))) ∧
    (∀ jd : Int, jdLongTerm (some jd) = true ↔ 360 < jd) ∧
    (∀ (status : Nat) (p : EPrices) (jd : Option Int) (dl : Int), p ≠ [] →
      determineOptimalScheduling (.response status (some p)) 0 jd dl =
        findOptimalStartTimeWithData 0 p jd dl)) :=
  ⟨by decide, c9_energy_aware_tick .connError 0 c9wSt c9wStAfter (by decide)⟩
